import Mathlib

/-!
# c++run: a C++ command interpreter

A shallow embedding of `main` of `src/c++run.cpp` and proofs about it.

`main` is modelled as a function of the argument vector and of an `Env`,
which fixes what every system call answers.  The result is a `Run`: the
system calls the launcher process performs, in order, and the value
`main` returns.  C strings are lists of characters (the characters before
the terminating NUL), C `int` values are `Int`.
-/

namespace CxxRun

/-! ## Strings and the option scan (lines 42-48) -/

/-- A C string: the characters before its terminating NUL. -/
abbrev CStr := List Char

/-- The character `s[0]` of a C string; the terminating NUL when `s` is empty. -/
def firstChar (s : CStr) : Char := s.headD (Char.ofNat 0)

/-- The loop of lines 45-48:
`while ((src_index < argc) && (argv[src_index][0] == '-'))
   { compile_stream << " " << argv[src_index]; src_index++; }`.
Returns the final `src_index` and the final content of `compile_stream`. -/
def scanLoop (argv : List CStr) (src_index : Nat) (compile_stream : List Char) :
    Nat × List Char :=
  if src_index < argv.length then
    if firstChar (argv.getD src_index []) = '-' then
      scanLoop argv (src_index + 1) (compile_stream ++ ' ' :: argv.getD src_index [])
    else (src_index, compile_stream)
  else (src_index, compile_stream)
termination_by argv.length - src_index

/-- Lines 42-48: `compile_stream << "g++"; int src_index = 1;` and the scan loop. -/
def optionScan (argv : List CStr) : Nat × List Char :=
  scanLoop argv 1 "g++".toList

/-! ## Splitting the compiler command line (lines 67-77) -/

/-- The C locale's `isspace`: space, `\t`, `\n`, `\v`, `\f`, `\r`. -/
def isspace (c : Char) : Bool :=
  c.toNat = 32 || (9 ≤ c.toNat && c.toNat ≤ 13)

/-- One `compile_stream >> option` on the unread part `s` of the stream:
leading whitespace is skipped; at end of stream the extraction fails
(`none`); otherwise the characters up to the next whitespace (or the end)
are extracted, and the rest stays unread. -/
def extractWord (s : List Char) : Option (List Char × List Char) :=
  let s1 := s.dropWhile isspace
  if s1 = [] then none
  else some (s1.takeWhile (fun c => !isspace c), s1.dropWhile (fun c => !isspace c))

/-- The loop of lines 71-75: `while (compile_stream >> option)
{ compile_strings.push_back(option); ... }`, on the unread part of the
stream; the strings pushed, in order. -/
def splitLoop (s : List Char) : List CStr :=
  match _h : extractWord s with
  | none => []
  | some (option, rest) => option :: splitLoop rest
termination_by s.length
decreasing_by
  have hlen : ∀ {w r : List Char}, extractWord s = some (w, r) → r.length < s.length := by
    intro w r h
    unfold extractWord at h
    simp only at h
    split at h
    · simp at h
    · rename_i hne
      simp only [Option.some.injEq, Prod.mk.injEq] at h
      obtain ⟨-, rfl⟩ := h
      have h1 : (s.dropWhile isspace).length ≤ s.length :=
        (List.dropWhile_sublist _).length_le
      cases hs : s.dropWhile isspace with
      | nil => exact absurd hs hne
      | cons c t =>
        have hc : isspace c = false := by
          have := List.head_dropWhile_not isspace s (by rw [hs]; simp)
          simpa [hs] using this
        rw [hs] at h1
        have h2 : ((c :: t).dropWhile (fun c => !isspace c)).length ≤ t.length := by
          rw [List.dropWhile_cons]
          simp only [hc, Bool.not_false, if_true]
          exact (List.dropWhile_sublist _).length_le
        simp only [List.length_cons] at h1
        omega
  exact hlen (by assumption)

/-- The whitespace-separated words of a string, as the specification
speaks of them: the non-empty pieces between whitespace characters. -/
def words (s : List Char) : List CStr :=
  (s.splitOnP isspace).filter (fun w => !w.isEmpty)

/-! ## System calls -/

/-- What a system call answers: failure, with the `errno` it sets, or a value. -/
inductive Sys (α : Type) where
  | error (errno : Int) : Sys α
  | ok (val : α) : Sys α
  deriving DecidableEq, Repr

/-- The file descriptors of `main`, by the variable that holds them
(`stdin` is descriptor 0). -/
inductive Fd where
  | stdin
  | exe_fd
  | src_fd
  | read_pipe
  | write_pipe
  deriving DecidableEq, Repr

/-- What the child process does after a `fork`.
`compiler file compile` is lines 109-118: `close(0); dup(read_pipe);
close(write_pipe); execvp(file, compile)`.
`executable path args` is line 162: `execv(path, args)`. -/
inductive Child where
  | compiler (file : CStr) (compile : List CStr)
  | executable (path : CStr) (args : List CStr)
  deriving DecidableEq, Repr

/-- The calls the launcher process makes, with their arguments and answers.
`read` and `write` carry the bytes offered or delivered; `fork pid child`
is a `fork()` that returns `pid` to the launcher (`-1`: no child was
created), `child` being the branch the new process takes; `kill pid` sends
`SIGTERM`; `unlink` carries its answer, which `main` does not look at. -/
inductive Event where
  | fprintf_stderr (text : List Char)
  | perror (s : CStr)
  | mkstemp (result : Sys CStr)
  | close (fd : Fd)
  | open_ (path : CStr) (result : Sys Unit)
  | read (fd : Fd) (size : Nat) (result : Sys (List Char))
  | pipe (result : Sys Unit)
  | fork (pid : Int) (child : Child)
  | kill (pid : Int)
  | write (fd : Fd) (buf : List Char) (result : Sys Nat)
  | waitpid (pid : Int) (result : Sys Int)
  | unlink (path : CStr) (result : Sys Unit)
  deriving DecidableEq, Repr

/-- The answers of the operating system during one run.
* `mkstemp_result`: the six characters `mkstemp` puts in place of `XXXXXX`;
* `open_result`: the content of the source file;
* `read_result k`, `write_result k`: the answer to the `k`-th `read` /
  `write` call (from 0): an error, or a number from which the byte count
  is taken (see `read_count`, `write_count`);
* `fork_compiler`, `fork_executable`: what the two `fork()` calls return
  to the launcher;
* `wait_compiler`, `wait_executable`: the wait status the two `waitpid`
  calls store;
* `unlink_result`: the answer of `unlink`. -/
structure Env where
  mkstemp_result : Sys CStr
  open_result : Sys (List Char)
  read_result : Nat → Sys Nat
  pipe_result : Sys Unit
  fork_compiler : Int
  write_result : Nat → Sys Nat
  wait_compiler : Sys Int
  fork_executable : Int
  wait_executable : Sys Int
  unlink_result : Sys Unit

/-- The count a successful `read(fd, buf, size)` returns when `rest` is the
unread part of the file: 0 at end of file, otherwise any number from 1 to
`min size rest.length`; `r` is the operating system's choice, brought into
that range. -/
def read_count (r size : Nat) (rest : List Char) : Nat :=
  min (max 1 r) (min size rest.length)

/-- The count a successful `write(fd, p, remaining)` returns for
`remaining > 0`: any number from 1 to `remaining`; `w` is the operating
system's choice, brought into that range. -/
def write_count (w remaining : Nat) : Nat :=
  min (max 1 w) remaining

/-! ## The first-line skip loop (lines 85-93) -/

/-- State after the skip loop: the `read` calls made, how many `read`
calls the run has made so far, the unread part of the file, and the `errno`
when the last `count` was negative. -/
structure Skip where
  events : List Event
  calls : Nat
  rest : List Char
  err : Option Int
  deriving DecidableEq, Repr

/-- The loop of lines 87-89: `do { count = read(src_fd, &c, 1); }
while ((count > 0) && (c != '\0') && (c != '\n') && (c != '\r'));`
with `rest` the unread part of the file and `k` the number of `read` calls
made before. -/
def skipLoop (env : Env) (rest : List Char) (k : Nat) : Skip :=
  match env.read_result k with
  | .error e => ⟨[.read .src_fd 1 (.error e)], k + 1, rest, some e⟩
  | .ok r =>
    let count := read_count r 1 rest
    let c := (rest.take count).headD (Char.ofNat 0)
    if _h : 0 < count then
      if c ≠ Char.ofNat 0 ∧ c ≠ '\n' ∧ c ≠ '\r' then
        let s := skipLoop env (rest.drop count) (k + 1)
        ⟨.read .src_fd 1 (.ok (rest.take count)) :: s.events, s.calls, s.rest, s.err⟩
      else ⟨[.read .src_fd 1 (.ok (rest.take count))], k + 1, rest.drop count, none⟩
    else ⟨[.read .src_fd 1 (.ok (rest.take count))], k + 1, rest.drop count, none⟩
termination_by rest.length
decreasing_by
  have hle : read_count r 1 rest ≤ rest.length := by unfold read_count; omega
  simp only [List.length_drop]
  omega

/-! ## The feed loop (lines 125-146) -/

/-- The loop of lines 136-144: `while (remaining) { written = write(write_pipe, p,
remaining); if (written < 0) { perror(src_name); return errno; }
p += written; remaining -= written; }`, where `p` holds the `remaining`
bytes still to write and `k` is the number of `write` calls made before.
Returns the calls made, the number of `write` calls made so far, and the
value `main` returns from inside the loop, if it does. -/
def writeLoop (env : Env) (src_name : CStr) (p : List Char) (k : Nat) :
    List Event × Nat × Option Int :=
  if _h : p.length = 0 then ([], k, none)
  else
    match env.write_result k with
    | .error e => ([.write .write_pipe p (.error e), .perror src_name], k + 1, some e)
    | .ok w =>
      let written := write_count w p.length
      let r := writeLoop env src_name (p.drop written) (k + 1)
      (.write .write_pipe p (.ok written) :: r.1, r.2.1, r.2.2)
termination_by p.length
decreasing_by
  simp only [List.length_drop, write_count]
  omega

/-- The loop of lines 126-145: `do { count = read(src_fd, buf, sizeof(buf));
if (count < 0) { ...; kill(child, SIGTERM); perror(src_name); return result; }
... write loop ... } while (count > 0);` with `rest` the unread part of the
file, `rk` and `wk` the numbers of `read` and `write` calls made before.
Returns the calls made and the value `main` returns from inside the loop,
if it does. -/
def feedLoop (env : Env) (src_name : CStr) (child : Int) (rest : List Char)
    (rk wk : Nat) : List Event × Option Int :=
  match env.read_result rk with
  | .error e => ([.read .src_fd 4096 (.error e), .kill child, .perror src_name], some e)
  | .ok r =>
    let count := read_count r 4096 rest
    let buf := rest.take count
    let w := writeLoop env src_name buf wk
    match w.2.2 with
    | some e => (.read .src_fd 4096 (.ok buf) :: w.1, some e)
    | none =>
      if _h : 0 < count then
        let f := feedLoop env src_name child (rest.drop count) (rk + 1) w.2.1
        (.read .src_fd 4096 (.ok buf) :: (w.1 ++ f.1), f.2)
      else (.read .src_fd 4096 (.ok buf) :: w.1, none)
termination_by rest.length
decreasing_by
  have hle : read_count r 4096 rest ≤ rest.length := by unfold read_count; omega
  simp only [List.length_drop]
  omega

/-! ## Wait status and exit status -/

/-- `WIFEXITED(status)` of `<sys/wait.h>` (glibc): `((status) & 0x7f) == 0`. -/
def WIFEXITED (status : Int) : Bool := status % 128 == 0

/-- `WEXITSTATUS(status)` of `<sys/wait.h>` (glibc): `((status) & 0xff00) >> 8`. -/
def WEXITSTATUS (status : Int) : Int := (status / 256) % 256

/-- The wait status of a child that exited with code `code` (glibc's
`W_EXITCODE(code, 0)`): `code << 8`. -/
def W_EXITCODE (code : Int) : Int := code * 256

/-- The exit code the parent of a process sees when its `main` returns
`ret`: `ret & 0377`. -/
def exit_code (ret : Int) : Int := ret % 256

/-! ## `main` -/

/-- The text `fprintf(stderr, usage_message, argv[0])` writes: `usage_message`
(lines 22-34) with its one `%s` replaced by `argv0`. -/
def usage_text (argv0 : CStr) : List Char :=
  "\nUsage: ".toList ++ argv0 ++
    (" [options] source.cpp [arguments]\n" ++
     "\n" ++
     "source.cpp is compiled to a temporary executable,\n" ++
     "with any options passed to g++. Then the executable\n" ++
     "is run with the arguments given.\n" ++
     "\n" ++
     "To make a C++ source file into a standalone executable,\n" ++
     "add the following on the first line:\n" ++
     "\n" ++
     "\t#!/usr/local/bin/c++run -Wall -Werror -O3\n" ++
     "\n").toList

/-- The result of `mkstemp` on `"/tmp/c++run-XXXXXX"` when it puts `sfx`
in place of `XXXXXX`. -/
def tmp_name (sfx : CStr) : CStr := "/tmp/c++run-".toList ++ sfx

/-- One run of the launcher process: the calls it made, in order, and the
value `main` returned. -/
structure Run where
  trace : List Event
  ret : Int
  deriving DecidableEq, Repr

/-- The function `main` of `c++run.cpp` (lines 36-176), in the launcher
process.  (With `argc = 0` the C program passes the null pointer `argv[0]`
to `fprintf`; here it prints as the empty string.) -/
def main (argv : List CStr) (env : Env) : Run :=
  let argc := argv.length
  let scan := optionScan argv
  let src_index := scan.1
  if argc ≤ src_index then
    ⟨[.fprintf_stderr (usage_text (argv.getD 0 []))], 1⟩
  else
  let src_name := argv.getD src_index []
  match env.mkstemp_result with
  | .error e => ⟨[.mkstemp (.error e), .perror src_name], e⟩
  | .ok sfx =>
  let exe_name := tmp_name sfx
  let t1 : List Event := [.mkstemp (.ok exe_name), .close .exe_fd]
  let compile_stream := scan.2 ++ " -x c++ - -o ".toList ++ exe_name
  let compile := splitLoop compile_stream
  match env.open_result with
  | .error e => ⟨t1 ++ [.open_ src_name (.error e), .perror src_name], e⟩
  | .ok file =>
  let skip := skipLoop env file 0
  let t2 : List Event := t1 ++ .open_ src_name (.ok ()) :: skip.events
  match skip.err with
  | some e => ⟨t2 ++ [.perror src_name], e⟩
  | none =>
  match env.pipe_result with
  | .error e => ⟨t2 ++ [.pipe (.error e), .perror src_name], e⟩
  | .ok _ =>
  let child := env.fork_compiler
  let feed := feedLoop env src_name child skip.rest skip.calls 0
  let t3 : List Event :=
    t2 ++ .pipe (.ok ()) :: .fork child (.compiler "g++".toList compile) :: feed.1
  match feed.2 with
  | some result => ⟨t3, result⟩
  | none =>
  match env.wait_compiler with
  | .error e => ⟨t3 ++ [.close .write_pipe, .waitpid child (.error e), .perror src_name], e⟩
  | .ok status =>
  if status ≠ 0 then
    ⟨t3 ++ [.close .write_pipe, .waitpid child (.ok status)], status⟩
  else
  let child2 := env.fork_executable
  let t4 : List Event :=
    t3 ++ [.close .write_pipe, .waitpid child (.ok status),
           .fork child2 (.executable exe_name (argv.drop src_index))]
  match env.wait_executable with
  | .error e => ⟨t4 ++ [.waitpid child2 (.error e), .perror src_name], e⟩
  | .ok status2 =>
  ⟨t4 ++ [.waitpid child2 (.ok status2), .unlink exe_name env.unlink_result],
    if WIFEXITED status2 then WEXITSTATUS status2 else status2⟩

/-- An environment in which every call succeeds: `mkstemp` yields `sfx`,
the source file holds `file`, every `read` and `write` transfers as much as
it can (`chunk` bytes at most), the children get pids 101 and 102 and
terminate with wait statuses `st1` and `st2`. -/
def Env.plain (sfx : CStr) (file : List Char) (chunk : Nat) (st1 st2 : Int) : Env :=
  { mkstemp_result := .ok sfx
    open_result := .ok file
    read_result := fun _ => .ok chunk
    pipe_result := .ok ()
    fork_compiler := 101
    write_result := fun _ => .ok chunk
    wait_compiler := .ok st1
    fork_executable := 102
    wait_executable := .ok st2
    unlink_result := .ok () }

/-! ## Observations on a run -/

/-- The bytes a call puts into the pipe: a successful `write` of `n` bytes
on `write_pipe` from the buffer `buf` puts the first `n` bytes of `buf`. -/
def Event.piped : Event → List Char
  | .write .write_pipe buf (.ok n) => buf.take n
  | _ => []

/-- The bytes written to the write end of the pipe during a run, in order. -/
def pipe_data (trace : List Event) : List Char :=
  trace.flatMap Event.piped

/-- The calls the loops of `main` make: `read`, `write`, `kill`, `perror`. -/
def Event.inLoop : Event → Bool
  | .read _ _ _ => true
  | .write _ _ _ => true
  | .kill _ => true
  | .perror _ => true
  | _ => false

/-- The delimiters of the directive line, as the specification lists them:
NUL, newline, carriage return. -/
def isDelim (c : Char) : Bool :=
  c = Char.ofNat 0 || c = '\n' || c = '\r'

/-- Every `read` succeeds. -/
def ReadsOk (env : Env) : Prop := ∀ k, ∃ r, env.read_result k = .ok r

/-- Every `write` succeeds. -/
def WritesOk (env : Env) : Prop := ∀ k, ∃ w, env.write_result k = .ok w

/-- The fixed tail of the compiler command line, as the specification
states it: `-x c++ - -o exe_name` (read the C++ source from standard input,
write the executable to `exe_name`). -/
def fixed_tail (exe_name : CStr) : List CStr :=
  ["-x".toList, "c++".toList, "-".toList, "-o".toList, exe_name]

/-- The option tokens of an argument vector, as the specification speaks
of them: those at positions `1 .. src_index - 1`. -/
def option_tokens (argv : List CStr) : List CStr :=
  (argv.drop 1).take ((optionScan argv).1 - 1)

/-- The calls of the stages after the feed loop: `waitpid`, the `fork`
of the executable, `unlink`. -/
def Event.afterFeed : Event → Bool
  | .waitpid _ _ => true
  | .fork _ (.executable _ _) => true
  | .unlink _ _ => true
  | _ => false

/-- The `fork` calls. -/
def Event.isFork : Event → Bool
  | .fork _ _ => true
  | _ => false

/-- The effect of one call of the launcher on the set of temp files it has
created and not removed: a successful `mkstemp` adds its path, a successful
`unlink` removes its path. -/
def files_step (fs : List CStr) : Event → List CStr
  | .mkstemp (.ok path) => path :: fs
  | .unlink path (.ok _) => fs.filter (fun q => q ≠ path)
  | _ => fs

/-- The temp files a run has created and not removed. -/
def files_left (trace : List Event) : List CStr :=
  trace.foldl files_step []

/-! # Theorems -/

/-! ## The option scan -/

theorem scanLoop_spec (argv : List CStr) (i : Nat) (st : List Char) (hi : i ≤ argv.length) :
    i ≤ (scanLoop argv i st).1 ∧ (scanLoop argv i st).1 ≤ argv.length ∧
    (∀ j, i ≤ j → j < (scanLoop argv i st).1 → firstChar (argv.getD j []) = '-') ∧
    ((scanLoop argv i st).1 < argv.length →
      firstChar (argv.getD (scanLoop argv i st).1 []) ≠ '-') ∧
    (scanLoop argv i st).2 =
      st ++ ((argv.drop i).take ((scanLoop argv i st).1 - i)).flatMap (fun t => ' ' :: t) := by
  induction i, st using scanLoop.induct argv with
  | case1 i st hlt hdash ih =>
    rw [scanLoop, if_pos hlt, if_pos hdash]
    generalize scanLoop argv (i + 1) (st ++ ' ' :: argv.getD i []) = r at ih ⊢
    obtain ⟨h1, h2, h3, h4, h5⟩ := ih hlt
    refine ⟨by omega, h2, ?_, h4, ?_⟩
    · intro j hij hj
      rcases Nat.eq_or_lt_of_le hij with rfl | hlt2
      · exact hdash
      · exact h3 j hlt2 hj
    · rw [h5]
      obtain ⟨n, hn⟩ : ∃ n, r.1 - i = n + 1 := ⟨r.1 - i - 1, by omega⟩
      have hn2 : r.1 - (i + 1) = n := by omega
      rw [hn, hn2, List.drop_eq_getElem_cons hlt, List.take_succ_cons, List.flatMap_cons,
        List.getD_eq_getElem _ _ hlt]
      simp
  | case2 i st hlt hdash =>
    rw [scanLoop, if_pos hlt, if_neg hdash]
    refine ⟨le_refl _, hi, ?_, fun _ => hdash, by simp⟩
    intro j h1 h2
    simp only at h2
    omega
  | case3 i st hge =>
    rw [scanLoop, if_neg hge]
    refine ⟨le_refl _, hi, ?_, fun h => absurd h hge, by simp⟩
    intro j h1 h2
    simp only at h2
    omega

/-- The scan from index 1, with element access in place of `getD`. -/
theorem optionScan_spec (argv : List CStr) (hargc : 1 ≤ argv.length) :
    1 ≤ (optionScan argv).1 ∧ (optionScan argv).1 ≤ argv.length ∧
    (∀ i (hi : i < argv.length), 1 ≤ i → i < (optionScan argv).1 → firstChar argv[i] = '-') ∧
    (∀ hs : (optionScan argv).1 < argv.length, firstChar argv[(optionScan argv).1] ≠ '-') ∧
    (optionScan argv).2 = "g++".toList ++
      ((argv.drop 1).take ((optionScan argv).1 - 1)).flatMap (fun t => ' ' :: t) := by
  obtain ⟨h1, h2, h3, h4, h5⟩ := scanLoop_spec argv 1 "g++".toList hargc
  unfold optionScan
  refine ⟨h1, h2, ?_, ?_, h5⟩
  · intro i hi h1i his
    have := h3 i h1i his
    rwa [List.getD_eq_getElem _ _ hi] at this
  · intro hs
    have := h4 hs
    rwa [List.getD_eq_getElem _ _ hs] at this

/-- The scan of `c++run x.cpp` stops at index 1, with `g++` collected. -/
theorem optionScan_plain :
    optionScan ["c++run".toList, "x.cpp".toList] = (1, "g++".toList) := by
  simp [optionScan, scanLoop, firstChar]

/-- The scan of `c++run "-O2 -Wall" x.cpp -a "b c"` stops at index 2. -/
theorem optionScan_shebang :
    optionScan ["c++run".toList, "-O2 -Wall".toList, "x.cpp".toList, "-a".toList,
      "b c".toList] = (2, "g++ -O2 -Wall".toList) := by
  simp [optionScan, scanLoop, firstChar]

/-- The scan of `c++run -O2 -Wall x.cpp -v` stops at index 3. -/
theorem optionScan_options :
    optionScan ["c++run".toList, "-O2".toList, "-Wall".toList, "x.cpp".toList, "-v".toList]
      = (3, "g++ -O2 -Wall".toList) := by
  simp [optionScan, scanLoop, firstChar]

/-! ## The loops -/

theorem read_count_nil (r size : Nat) : read_count r size [] = 0 := by
  simp [read_count]

theorem read_count_one_cons (r : Nat) (c : Char) (l : List Char) :
    read_count r 1 (c :: l) = 1 := by
  simp only [read_count, List.length_cons]
  omega

theorem read_count_le (r size : Nat) (rest : List Char) :
    read_count r size rest ≤ rest.length := by
  unfold read_count
  omega

theorem skipLoop_inLoop (env : Env) (rest : List Char) (k : Nat) :
    ∀ e ∈ (skipLoop env rest k).events, e.inLoop = true := by
  induction rest, k using skipLoop.induct env with
  | case1 rest k e he =>
    rw [skipLoop]
    simp [he, Event.inLoop]
  | case2 rest k r hr count c hpos hc ih =>
    rw [skipLoop]
    simp only [hr]
    rw [dif_pos hpos, if_pos hc]
    intro e he
    rcases List.mem_cons.1 he with rfl | h
    · rfl
    · exact ih e h
  | case3 rest k r hr count c hpos hc =>
    rw [skipLoop]
    simp only [hr]
    rw [dif_pos hpos, if_neg hc]
    simp [Event.inLoop]
  | case4 rest k r hr count hpos =>
    rw [skipLoop]
    simp only [hr]
    rw [dif_neg hpos]
    simp [Event.inLoop]

theorem writeLoop_inLoop (env : Env) (src_name : CStr) (p : List Char) (k : Nat) :
    ∀ e ∈ (writeLoop env src_name p k).1, e.inLoop = true := by
  induction p, k using writeLoop.induct env src_name with
  | case1 p k h0 =>
    rw [writeLoop, dif_pos h0]
    simp
  | case2 p k h0 e he =>
    rw [writeLoop, dif_neg h0]
    simp [he, Event.inLoop]
  | case3 p k h0 r hr written ih =>
    rw [writeLoop, dif_neg h0]
    simp only [hr]
    intro e he
    rcases List.mem_cons.1 he with rfl | h
    · rfl
    · exact ih e h

theorem feedLoop_inLoop (env : Env) (src_name : CStr) (child : Int) (rest : List Char)
    (rk wk : Nat) : ∀ e ∈ (feedLoop env src_name child rest rk wk).1, e.inLoop = true := by
  induction rest, rk, wk using feedLoop.induct env src_name child with
  | case1 rest rk wk e he =>
    rw [feedLoop]
    simp [he, Event.inLoop]
  | case2 rest rk wk r hr count buf w e he =>
    have he2 : (writeLoop env src_name (rest.take (read_count r 4096 rest)) wk).2.2 = some e := he
    rw [feedLoop]
    simp only [hr, he2]
    intro ev hev
    rcases List.mem_cons.1 hev with rfl | h
    · rfl
    · exact writeLoop_inLoop _ _ _ _ ev h
  | case3 rest rk wk r hr count buf w hw hpos ih =>
    have hw2 : (writeLoop env src_name (rest.take (read_count r 4096 rest)) wk).2.2 = none := hw
    have hpos2 : 0 < read_count r 4096 rest := hpos
    rw [feedLoop]
    simp only [hr, hw2, dif_pos hpos2]
    intro ev hev
    rcases List.mem_cons.1 hev with rfl | h
    · rfl
    · rcases List.mem_append.1 h with h | h
      · exact writeLoop_inLoop _ _ _ _ ev h
      · exact ih ev h
  | case4 rest rk wk r hr count buf w hw hpos =>
    have hw2 : (writeLoop env src_name (rest.take (read_count r 4096 rest)) wk).2.2 = none := hw
    have hpos2 : ¬ 0 < read_count r 4096 rest := hpos
    rw [feedLoop]
    simp only [hr, hw2, dif_neg hpos2]
    intro ev hev
    rcases List.mem_cons.1 hev with rfl | h
    · rfl
    · exact writeLoop_inLoop _ _ _ _ ev h

theorem skipLoop_piped (env : Env) (rest : List Char) (k : Nat) :
    pipe_data (skipLoop env rest k).events = [] := by
  induction rest, k using skipLoop.induct env with
  | case1 rest k e he =>
    rw [skipLoop]
    simp [he, pipe_data, Event.piped]
  | case2 rest k r hr count c hpos hc ih =>
    rw [skipLoop]
    simp only [hr]
    rw [dif_pos hpos, if_pos hc]
    simpa [pipe_data, Event.piped] using ih
  | case3 rest k r hr count c hpos hc =>
    rw [skipLoop]
    simp only [hr]
    rw [dif_pos hpos, if_neg hc]
    simp [pipe_data, Event.piped]
  | case4 rest k r hr count hpos =>
    rw [skipLoop]
    simp only [hr]
    rw [dif_neg hpos]
    simp [pipe_data, Event.piped]

theorem isDelim_false_iff (c : Char) :
    isDelim c = false ↔ (c ≠ Char.ofNat 0 ∧ c ≠ '\n' ∧ c ≠ '\r') := by
  simp [isDelim, and_assoc]

/-- The skip loop stops right after the first delimiter. -/
theorem skipLoop_line (env : Env) (hr : ReadsOk env) (line : List Char) (d : Char)
    (body : List Char) (hline : ∀ c ∈ line, isDelim c = false) (hd : isDelim d = true) :
    ∀ k, (skipLoop env (line ++ d :: body) k).rest = body ∧
      (skipLoop env (line ++ d :: body) k).err = none := by
  induction line with
  | nil =>
    intro k
    obtain ⟨r, hrk⟩ := hr k
    have hnd : ¬ (d ≠ Char.ofNat 0 ∧ d ≠ '\n' ∧ d ≠ '\r') := by
      rw [← isDelim_false_iff, hd]
      simp
    rw [skipLoop]
    simp only [hrk, List.nil_append, read_count_one_cons, List.take_succ_cons, List.take_zero,
      List.headD_cons, Nat.lt_one_iff, dif_pos, if_neg hnd, List.drop_succ_cons, List.drop_zero]
    simp
  | cons c l ih =>
    intro k
    obtain ⟨r, hrk⟩ := hr k
    have hc : c ≠ Char.ofNat 0 ∧ c ≠ '\n' ∧ c ≠ '\r' :=
      (isDelim_false_iff c).1 (hline c (List.mem_cons_self _ _))
    rw [skipLoop]
    simp only [hrk, List.cons_append, read_count_one_cons, List.take_succ_cons, List.take_zero,
      List.headD_cons, if_pos hc, List.drop_succ_cons, List.drop_zero]
    simpa using ih (fun x hx => hline x (List.mem_cons_of_mem _ hx)) (k + 1)

/-- Without a delimiter the skip loop reads the whole file. -/
theorem skipLoop_nodelim (env : Env) (hr : ReadsOk env) (file : List Char)
    (hfile : ∀ c ∈ file, isDelim c = false) :
    ∀ k, (skipLoop env file k).rest = [] ∧ (skipLoop env file k).err = none := by
  induction file with
  | nil =>
    intro k
    obtain ⟨r, hrk⟩ := hr k
    rw [skipLoop]
    simp [hrk, read_count_nil]
  | cons c l ih =>
    intro k
    obtain ⟨r, hrk⟩ := hr k
    have hc : c ≠ Char.ofNat 0 ∧ c ≠ '\n' ∧ c ≠ '\r' :=
      (isDelim_false_iff c).1 (hfile c (List.mem_cons_self _ _))
    rw [skipLoop]
    simp only [hrk, read_count_one_cons, List.take_succ_cons, List.take_zero,
      List.headD_cons, if_pos hc, List.drop_succ_cons, List.drop_zero]
    simpa using ih (fun x hx => hfile x (List.mem_cons_of_mem _ hx)) (k + 1)

/-- With successful writes, the write loop puts exactly the buffer into the pipe. -/
theorem writeLoop_ok (env : Env) (hw : WritesOk env) (src_name : CStr) (p : List Char)
    (k : Nat) : pipe_data (writeLoop env src_name p k).1 = p ∧
      (writeLoop env src_name p k).2.2 = none := by
  induction p, k using writeLoop.induct env src_name with
  | case1 p k h0 =>
    rw [writeLoop, dif_pos h0]
    have : p = [] := List.length_eq_zero.1 h0
    simp [pipe_data, this]
  | case2 p k h0 e he =>
    obtain ⟨w, hwk⟩ := hw k
    rw [hwk] at he
    cases he
  | case3 p k h0 r hr written ih =>
    rw [writeLoop, dif_neg h0]
    simp only [hr]
    refine ⟨?_, ih.2⟩
    have h1 := ih.1
    simp only [pipe_data, List.flatMap_cons, Event.piped] at h1 ⊢
    rw [h1]
    exact List.take_append_drop _ _

/-- With successful reads and writes, the feed loop puts exactly the unread
part of the file into the pipe, and falls through. -/
theorem feedLoop_ok (env : Env) (hr : ReadsOk env) (hw : WritesOk env) (src_name : CStr)
    (child : Int) (rest : List Char) (rk wk : Nat) :
    pipe_data (feedLoop env src_name child rest rk wk).1 = rest ∧
      (feedLoop env src_name child rest rk wk).2 = none := by
  induction rest, rk, wk using feedLoop.induct env src_name child with
  | case1 rest rk wk e he =>
    obtain ⟨r, hrk⟩ := hr rk
    rw [hrk] at he
    cases he
  | case2 rest rk wk r hrk count buf w e he =>
    have := (writeLoop_ok env hw src_name buf wk).2
    rw [this] at he
    cases he
  | case3 rest rk wk r hrk count buf w hw2 hpos ih =>
    have hw3 : (writeLoop env src_name (rest.take (read_count r 4096 rest)) wk).2.2 = none := hw2
    have hpos2 : 0 < read_count r 4096 rest := hpos
    rw [feedLoop]
    simp only [hrk, hw3, dif_pos hpos2]
    refine ⟨?_, ih.2⟩
    have h1 := ih.1
    have h2 := (writeLoop_ok env hw src_name (rest.take (read_count r 4096 rest)) wk).1
    simp only [pipe_data, List.flatMap_cons, List.flatMap_append, Event.piped,
      List.nil_append] at h1 h2 ⊢
    rw [h1, h2]
    exact List.take_append_drop _ _
  | case4 rest rk wk r hrk count buf w hw2 hpos =>
    have hw3 : (writeLoop env src_name (rest.take (read_count r 4096 rest)) wk).2.2 = none := hw2
    have hpos2 : ¬ 0 < read_count r 4096 rest := hpos
    rw [feedLoop]
    simp only [hrk, hw3, dif_neg hpos2]
    have h0 : read_count r 4096 rest = 0 := by omega
    have hrest : rest = [] := by
      unfold read_count at h0
      have : rest.length = 0 := by omega
      exact List.length_eq_zero.1 this
    subst hrest
    have h2 := (writeLoop_ok env hw src_name (([] : List Char).take (read_count r 4096 [])) wk).1
    simp only [pipe_data, List.flatMap_cons, Event.piped, List.nil_append] at h2 ⊢
    rw [h2]
    simp

/-! ## The source feeder -/

theorem pipe_data_append (a b : List Event) : pipe_data (a ++ b) = pipe_data a ++ pipe_data b := by
  simp [pipe_data]

theorem pipe_data_nil : pipe_data [] = [] := rfl

theorem pipe_data_cons (e : Event) (a : List Event) :
    pipe_data (e :: a) = e.piped ++ pipe_data a := by
  simp [pipe_data]

/-- When the run reaches the feed loop, the bytes put into the pipe are
those the feed loop writes. -/
theorem main_pipe_data (argv : List CStr) (env : Env) (sfx : CStr) (file : List Char)
    (hs : (optionScan argv).1 < argv.length)
    (hmk : env.mkstemp_result = .ok sfx) (hop : env.open_result = .ok file)
    (hskip : (skipLoop env file 0).err = none) (hp : env.pipe_result = .ok ()) :
    pipe_data (main argv env).trace =
      pipe_data (feedLoop env (argv.getD (optionScan argv).1 []) env.fork_compiler
        (skipLoop env file 0).rest (skipLoop env file 0).calls 0).1 := by
  unfold main
  simp only [Nat.not_le.2 hs, if_false, hmk, hop, hskip, hp]
  split
  · simp [pipe_data_append, pipe_data_cons, pipe_data_nil, Event.piped, skipLoop_piped]
  · split
    · simp [pipe_data_append, pipe_data_cons, pipe_data_nil, Event.piped, skipLoop_piped]
    · split
      · simp [pipe_data_append, pipe_data_cons, pipe_data_nil, Event.piped, skipLoop_piped]
      · split
        · simp [pipe_data_append, pipe_data_cons, pipe_data_nil, Event.piped, skipLoop_piped]
        · simp [pipe_data_append, pipe_data_cons, pipe_data_nil, Event.piped, skipLoop_piped]

/-- The counts `read_count` yields are exactly the legal ones: at least 1
and at most `min size rest.length` when bytes are left, and every such
count is yielded by some choice of the operating system. -/
theorem read_count_range (size : Nat) (rest : List Char) (hsize : 1 ≤ size)
    (hrest : rest ≠ []) :
    (∀ r, 1 ≤ read_count r size rest ∧ read_count r size rest ≤ min size rest.length) ∧
    (∀ n, 1 ≤ n → n ≤ min size rest.length → read_count n size rest = n) := by
  have hlen : 1 ≤ rest.length := by
    cases rest with
    | nil => exact absurd rfl hrest
    | cons c l => simp
  constructor
  · intro r
    unfold read_count
    omega
  · intro n h1 h2
    unfold read_count
    omega

/-- The counts `write_count` yields are exactly the legal ones: from 1 to
`remaining`, each yielded by some choice of the operating system. -/
theorem write_count_range (remaining : Nat) (hrem : 1 ≤ remaining) :
    (∀ w, 1 ≤ write_count w remaining ∧ write_count w remaining ≤ remaining) ∧
    (∀ n, 1 ≤ n → n ≤ remaining → write_count n remaining = n) := by
  constructor
  · intro w
    unfold write_count
    omega
  · intro n h1 h2
    unfold write_count
    omega

/-- C1 (Source Feeder).  In a run that reaches the feed loop and in which
every `read` and `write` succeeds, whatever counts they return: if the
source file is `line ++ [d] ++ body` with no NUL, LF or CR in `line` and
`d` one of them, the bytes written to the pipe, concatenated in order, are
exactly `body`; and if the file holds no NUL, LF or CR at all, nothing is
written to the pipe. -/
theorem source_feeder_forwards_body (argv : List CStr) (env : Env) (sfx : CStr)
    (file : List Char) (hs : (optionScan argv).1 < argv.length)
    (hmk : env.mkstemp_result = .ok sfx) (hop : env.open_result = .ok file)
    (hr : ReadsOk env) (hp : env.pipe_result = .ok ()) (hw : WritesOk env) :
    (∀ line d body, file = line ++ d :: body → (∀ c ∈ line, isDelim c = false) →
        isDelim d = true → pipe_data (main argv env).trace = body) ∧
    ((∀ c ∈ file, isDelim c = false) → pipe_data (main argv env).trace = []) := by
  constructor
  · intro line d body hfile hline hd
    subst hfile
    obtain ⟨h1, h2⟩ := skipLoop_line env hr line d body hline hd 0
    rw [main_pipe_data argv env sfx _ hs hmk hop h2 hp, h1]
    exact (feedLoop_ok env hr hw _ _ _ _ _).1
  · intro hfile
    obtain ⟨h1, h2⟩ := skipLoop_nodelim env hr file hfile 0
    rw [main_pipe_data argv env sfx _ hs hmk hop h2 hp, h1]
    exact (feedLoop_ok env hr hw _ _ _ _ _).1

/-- C1 at `c++run x.cpp`, the file `#!/dummy\nint main(){return 42;}\n`,
reads and writes of at most 7 bytes. -/
theorem source_feeder_forwards_body_witness :
    pipe_data (main ["c++run".toList, "x.cpp".toList]
      (Env.plain "abc123".toList "#!/dummy\nint main()\x7breturn 42;\x7d\n".toList 7 0 10752)).trace
      = "int main()\x7breturn 42;\x7d\n".toList :=
  (source_feeder_forwards_body ["c++run".toList, "x.cpp".toList]
    (Env.plain "abc123".toList "#!/dummy\nint main()\x7breturn 42;\x7d\n".toList 7 0 10752)
    "abc123".toList "#!/dummy\nint main()\x7breturn 42;\x7d\n".toList
    (by rw [optionScan_plain]; decide) rfl rfl (fun _ => ⟨7, rfl⟩) rfl (fun _ => ⟨7, rfl⟩)).1
    "#!/dummy".toList '\n' "int main()\x7breturn 42;\x7d\n".toList (by decide) (by decide) (by decide)

/-! ## Calls outside the loops -/

theorem not_mem_skip (env : Env) (rest : List Char) (k : Nat) (e : Event)
    (h : e.inLoop = false) : e ∉ (skipLoop env rest k).events := by
  intro hm
  rw [skipLoop_inLoop env rest k e hm] at h
  cases h

theorem not_mem_feed (env : Env) (src_name : CStr) (child : Int) (rest : List Char)
    (rk wk : Nat) (e : Event) (h : e.inLoop = false) :
    e ∉ (feedLoop env src_name child rest rk wk).1 := by
  intro hm
  rw [feedLoop_inLoop env src_name child rest rk wk e hm] at h
  cases h

/-- Only the usage branch returns without calling `mkstemp`. -/
theorem main_usage (argv : List CStr) (env : Env)
    (hs : argv.length ≤ (optionScan argv).1) :
    main argv env = ⟨[.fprintf_stderr (usage_text (argv.getD 0 []))], 1⟩ := by
  unfold main
  simp only [hs, if_true]

theorem main_no_usage (argv : List CStr) (env : Env)
    (hs : (optionScan argv).1 < argv.length) (text : List Char) :
    Event.fprintf_stderr text ∉ (main argv env).trace := by
  intro he
  unfold main at he
  simp only [Nat.not_le.2 hs, if_false] at he
  repeat' split at he
  all_goals
    simp [not_mem_skip, not_mem_feed, Event.inLoop] at he

/-- An `open` is made only outside the usage branch, on `argv[src_index]`. -/
theorem main_open_path (argv : List CStr) (env : Env) (path : CStr) (r : Sys Unit)
    (he : Event.open_ path r ∈ (main argv env).trace) :
    (optionScan argv).1 < argv.length ∧ path = argv.getD (optionScan argv).1 [] := by
  unfold main at he
  simp only at he
  repeat' split at he
  all_goals
    simp [not_mem_skip, not_mem_feed, Event.inLoop] at he
  all_goals
    refine ⟨by omega, ?_⟩
    simp [he]

theorem main_opens (argv : List CStr) (env : Env) (sfx : CStr)
    (hs : (optionScan argv).1 < argv.length) (hmk : env.mkstemp_result = .ok sfx) :
    ∃ r, Event.open_ (argv.getD (optionScan argv).1 []) r ∈ (main argv env).trace := by
  cases hop : env.open_result with
  | error e =>
    refine ⟨.error e, ?_⟩
    unfold main
    simp [Nat.not_le.2 hs, hmk, hop]
  | ok file =>
    refine ⟨.ok (), ?_⟩
    unfold main
    simp only [Nat.not_le.2 hs, if_false, hmk, hop]
    repeat' split
    all_goals simp

/-- C3 (Option scan).  For every argument vector with `argc >= 1`: the
index `src_index` the scan computes is between 1 and `argc`; every token
at positions `1 .. src_index - 1` begins with `-`; the token at
`src_index`, when there is one, does not; so `src_index` is the least
index from 1 whose token does not begin with `-` (and `argc` when there is
none); the text collected for the compiler is `g++` followed by exactly
the tokens at positions `1 .. src_index - 1`, in order, each after one
space; and the path every `open` is made on is `argv[src_index]`, which
is opened whenever `mkstemp` has succeeded. -/
theorem option_scan (argv : List CStr) (env : Env) (hargc : 1 ≤ argv.length) :
    1 ≤ (optionScan argv).1 ∧ (optionScan argv).1 ≤ argv.length ∧
    (∀ i (hi : i < argv.length), 1 ≤ i → i < (optionScan argv).1 →
      firstChar argv[i] = '-') ∧
    (∀ hs : (optionScan argv).1 < argv.length, firstChar argv[(optionScan argv).1] ≠ '-') ∧
    (∀ i (hi : i < argv.length), 1 ≤ i → firstChar argv[i] ≠ '-' →
      (optionScan argv).1 ≤ i) ∧
    (optionScan argv).2 = "g++".toList ++
      ((argv.drop 1).take ((optionScan argv).1 - 1)).flatMap (fun t => ' ' :: t) ∧
    (∀ path r, Event.open_ path r ∈ (main argv env).trace →
      argv[(optionScan argv).1]? = some path) ∧
    (∀ (hs : (optionScan argv).1 < argv.length) sfx, env.mkstemp_result = .ok sfx →
      ∃ r, Event.open_ argv[(optionScan argv).1] r ∈ (main argv env).trace) := by
  obtain ⟨h1, h2, h3, h4, h5⟩ := optionScan_spec argv hargc
  refine ⟨h1, h2, h3, h4, ?_, h5, ?_, ?_⟩
  · intro i hi h1i hnd
    by_contra hlt
    exact hnd (h3 i hi h1i (by omega))
  · intro path r he
    obtain ⟨hs, hp⟩ := main_open_path argv env path r he
    rw [hp, List.getD_eq_getElem _ _ hs, List.getElem?_eq_getElem hs]
  · intro hs sfx hmk
    have := main_opens argv env sfx hs hmk
    rwa [List.getD_eq_getElem _ _ hs] at this

/-- C3 at `c++run -O2 -Wall x.cpp -v`. -/
theorem option_scan_witness :
    (optionScan ["c++run".toList, "-O2".toList, "-Wall".toList, "x.cpp".toList,
        "-v".toList]).1 = 3 ∧
    (optionScan ["c++run".toList, "-O2".toList, "-Wall".toList, "x.cpp".toList,
        "-v".toList]).2 = "g++".toList ++
      (["-O2".toList, "-Wall".toList]).flatMap (fun t => ' ' :: t) ∧
    ∃ r, Event.open_ "x.cpp".toList r ∈
      (main ["c++run".toList, "-O2".toList, "-Wall".toList, "x.cpp".toList, "-v".toList]
        (Env.plain "abc123".toList "#!\nab".toList 7 0 0)).trace := by
  have h := option_scan
    ["c++run".toList, "-O2".toList, "-Wall".toList, "x.cpp".toList, "-v".toList]
    (Env.plain "abc123".toList "#!\nab".toList 7 0 0) (by decide)
  have hs3 := optionScan_options
  refine ⟨by rw [hs3], ?_, ?_⟩
  · have h6 := h.2.2.2.2.2.1
    rw [h6, hs3]
    rfl
  · have h8 := h.2.2.2.2.2.2.2 (by rw [hs3]; decide) "abc123".toList rfl
    simp only [hs3] at h8
    exact h8

/-! ## The usage error -/

/-- C6 (Usage error).  When every token after the launcher name begins
with `-` (also when there is none), `main` writes the usage message to the
error stream and returns 1, and that is the only call it makes: no
`mkstemp`, no `open`, no `pipe`, no `fork`.  When some token after the
launcher name does not begin with `-`, the usage message is not written. -/
theorem usage_error (argv0 : CStr) (args : List CStr) (env : Env) :
    ((∀ t ∈ args, firstChar t = '-') →
      main (argv0 :: args) env = ⟨[.fprintf_stderr (usage_text argv0)], 1⟩) ∧
    ((∃ t ∈ args, firstChar t ≠ '-') →
      ∀ text, Event.fprintf_stderr text ∉ (main (argv0 :: args) env).trace) := by
  obtain ⟨h1, h2, h3, h4, -⟩ := optionScan_spec (argv0 :: args) (by simp)
  constructor
  · intro hall
    have hs : (argv0 :: args).length ≤ (optionScan (argv0 :: args)).1 := by
      by_contra hlt
      have hlt2 : (optionScan (argv0 :: args)).1 < (argv0 :: args).length := by omega
      apply h4 hlt2
      obtain ⟨n, hn⟩ : ∃ n, (optionScan (argv0 :: args)).1 = n + 1 :=
        ⟨(optionScan (argv0 :: args)).1 - 1, by omega⟩
      simp only [hn, List.getElem_cons_succ]
      exact hall _ (List.getElem_mem _)
    simpa using main_usage (argv0 :: args) env hs
  · rintro ⟨t, ht, hnd⟩ text
    apply main_no_usage
    obtain ⟨j, hj, rfl⟩ := List.getElem_of_mem ht
    by_contra hge
    apply hnd
    have := h3 (j + 1) (by simpa using hj) (by omega) (by simp only [List.length_cons] at hge; omega)
    simpa using this

/-- C6 at `c++run -Wall` (usage) and at `c++run -Wall x.cpp` (no usage). -/
theorem usage_error_witness :
    main ["c++run".toList, "-Wall".toList] (Env.plain "abc123".toList [] 7 0 0)
      = ⟨[.fprintf_stderr (usage_text "c++run".toList)], 1⟩ ∧
    ∀ text, Event.fprintf_stderr text ∉
      (main ["c++run".toList, "-Wall".toList, "x.cpp".toList]
        (Env.plain "abc123".toList [] 7 0 0)).trace :=
  ⟨(usage_error "c++run".toList ["-Wall".toList] (Env.plain "abc123".toList [] 7 0 0)).1
      (by decide),
   (usage_error "c++run".toList ["-Wall".toList, "x.cpp".toList]
      (Env.plain "abc123".toList [] 7 0 0)).2 ⟨"x.cpp".toList, by decide, by decide⟩⟩

/-! ## The compiler command line -/

theorem splitOnP_append_sep (p : Char → Bool) (a b : List Char) (c : Char)
    (hc : p c = true) : (a ++ c :: b).splitOnP p = a.splitOnP p ++ b.splitOnP p := by
  induction a with
  | nil => simp [hc]
  | cons x a ih =>
    simp only [List.cons_append, List.splitOnP_cons, ih]
    split
    · rfl
    · cases h : a.splitOnP p with
      | nil => exact absurd h (List.splitOnP_ne_nil _ _)
      | cons y ys => simp [List.modifyHead]

theorem words_append_space (a b : List Char) (c : Char) (hc : isspace c = true) :
    words (a ++ c :: b) = words a ++ words b := by
  simp [words, splitOnP_append_sep _ _ _ _ hc]

theorem words_cons_space (c : Char) (s : List Char) (hc : isspace c = true) :
    words (c :: s) = words s := by
  simp [words, hc]

theorem words_single (s : List Char) (hne : s ≠ []) (h : ∀ c ∈ s, isspace c = false) :
    words s = [s] := by
  rw [words, List.splitOnP_eq_single]
  · simp [hne]
  · intro x hx
    simp [h x hx]

theorem words_spaces_append (pre s : List Char) (h : ∀ c ∈ pre, isspace c = true) :
    words (pre ++ s) = words s := by
  induction pre with
  | nil => rfl
  | cons c l ih =>
    rw [List.cons_append, words_cons_space _ _ (h c (List.mem_cons_self _ _))]
    exact ih (fun x hx => h x (List.mem_cons_of_mem _ hx))

theorem words_nil : words [] = [] := by
  simp [words]

/-- What a failed extraction says about the stream: only whitespace is left. -/
theorem extractWord_none (s : List Char) (h : extractWord s = none) :
    ∀ c ∈ s, isspace c = true := by
  unfold extractWord at h
  simp only at h
  split at h
  · rename_i hnil
    intro c hc
    exact List.dropWhile_eq_nil_iff.1 hnil c hc
  · cases h

/-- What a successful extraction says about the stream: whitespace, then
the word, which is not empty and free of whitespace, then the rest, which
is empty or begins with whitespace. -/
theorem extractWord_some (s w rest : List Char) (h : extractWord s = some (w, rest)) :
    ∃ pre, s = pre ++ (w ++ rest) ∧ (∀ c ∈ pre, isspace c = true) ∧ w ≠ [] ∧
      (∀ c ∈ w, isspace c = false) ∧
      (rest = [] ∨ ∃ c r, rest = c :: r ∧ isspace c = true) := by
  unfold extractWord at h
  simp only at h
  split at h
  · cases h
  · rename_i hne
    simp only [Option.some.injEq, Prod.mk.injEq] at h
    obtain ⟨rfl, rfl⟩ := h
    refine ⟨s.takeWhile isspace, ?_, ?_, ?_, ?_, ?_⟩
    · rw [List.takeWhile_append_dropWhile, List.takeWhile_append_dropWhile]
    · intro c hc
      exact List.mem_takeWhile_imp hc
    · cases hs : s.dropWhile isspace with
      | nil => exact absurd hs hne
      | cons c t =>
        have hc : isspace c = false := by
          have := List.head_dropWhile_not isspace s (by rw [hs]; simp)
          simpa [hs] using this
        simp [List.takeWhile_cons, hc]
    · intro c hc
      have := List.mem_takeWhile_imp hc
      simpa using this
    · cases hr : (s.dropWhile isspace).dropWhile (fun c => !isspace c) with
      | nil => exact Or.inl rfl
      | cons c r =>
        refine Or.inr ⟨c, r, rfl, ?_⟩
        have := List.head_dropWhile_not (fun c => !isspace c) (s.dropWhile isspace)
          (by rw [hr]; simp)
        simpa [hr] using this

/-- The extraction loop yields the whitespace-separated words of the stream. -/
theorem splitLoop_eq_words (s : List Char) : splitLoop s = words s := by
  induction s using splitLoop.induct with
  | case1 s hnone =>
    rw [splitLoop]
    split
    · have := words_spaces_append s [] (extractWord_none s hnone)
      rw [List.append_nil, words_nil] at this
      exact this.symm
    · rename_i heq
      rw [hnone] at heq
      cases heq
  | case2 s w rest hsome ih =>
    rw [splitLoop]
    split
    · rename_i heq
      rw [hsome] at heq
      cases heq
    · rename_i w2 rest2 heq
      rw [hsome] at heq
      simp only [Option.some.injEq, Prod.mk.injEq] at heq
      obtain ⟨rfl, rfl⟩ := heq
      rw [ih]
      obtain ⟨pre, hs, hpre, hw, hwn, hrest⟩ := extractWord_some s w rest hsome
      rw [hs, words_spaces_append _ _ hpre]
      rcases hrest with rfl | ⟨c, r, rfl, hc⟩
      · rw [List.append_nil, words_nil, words_single w hw hwn]
      · rw [words_append_space _ _ _ hc, words_cons_space _ _ hc, words_single w hw hwn]
        rfl

theorem words_flatMap_space (ts : List CStr) (a : List Char) :
    words (a ++ ts.flatMap (fun t => ' ' :: t)) = words a ++ ts.flatMap words := by
  induction ts generalizing a with
  | nil => simp
  | cons t ts ih =>
    rw [List.flatMap_cons, ← List.append_assoc, ih, words_append_space _ _ _ (by decide),
      List.flatMap_cons, List.append_assoc]

theorem option_tokens_dash (argv : List CStr) (hargc : 1 ≤ argv.length) :
    ∀ t ∈ option_tokens argv, firstChar t = '-' := by
  intro t ht
  obtain ⟨i, hi, rfl⟩ := List.getElem_of_mem ht
  simp only [option_tokens, List.length_take, List.length_drop] at hi
  simp only [option_tokens, List.getElem_take, List.getElem_drop]
  exact (optionScan_spec argv hargc).2.2.1 (1 + i) (by omega) (by omega) (by omega)

/-- The vector the split loop builds, in the specification's terms. -/
theorem compile_vector (argv : List CStr) (hargc : 1 ≤ argv.length) (sfx : CStr)
    (hsfx : ∀ c ∈ sfx, isspace c = false) :
    splitLoop ((optionScan argv).2 ++ " -x c++ - -o ".toList ++ tmp_name sfx) =
      "g++".toList :: (option_tokens argv).flatMap words ++ fixed_tail (tmp_name sfx) := by
  have htail : " -x c++ - -o ".toList ++ tmp_name sfx =
      (fixed_tail (tmp_name sfx)).flatMap (fun t => ' ' :: t) := by
    simp [fixed_tail]
  have hexe : words (tmp_name sfx) = [tmp_name sfx] := by
    apply words_single
    · simp [tmp_name]
    · intro c hc
      rcases List.mem_append.1 hc with h | h
      · exact (by decide : ∀ x ∈ "/tmp/c++run-".toList, isspace x = false) c h
      · exact hsfx c h
  have hfix : (fixed_tail (tmp_name sfx)).flatMap words = fixed_tail (tmp_name sfx) := by
    have h1 : words "-x".toList = ["-x".toList] := words_single _ (by decide) (by decide)
    have h2 : words "c++".toList = ["c++".toList] := words_single _ (by decide) (by decide)
    have h3 : words "-".toList = ["-".toList] := words_single _ (by decide) (by decide)
    have h4 : words "-o".toList = ["-o".toList] := words_single _ (by decide) (by decide)
    simp only [fixed_tail, List.flatMap_cons, List.flatMap_nil, h1, h2, h3, h4, hexe]
    rfl
  have hgpp : words "g++".toList = ["g++".toList] := words_single _ (by decide) (by decide)
  rw [splitLoop_eq_words, (optionScan_spec argv hargc).2.2.2.2, List.append_assoc,
    List.append_assoc, htail, ← List.flatMap_append, words_flatMap_space, List.flatMap_append,
    hfix, hgpp]
  rfl

/-- Words of tokens that are not empty and hold no whitespace: the tokens. -/
theorem flatMap_words_id (ts : List CStr) (hne : ∀ t ∈ ts, t ≠ [])
    (hws : ∀ t ∈ ts, ∀ c ∈ t, isspace c = false) : ts.flatMap words = ts := by
  induction ts with
  | nil => rfl
  | cons t ts ih =>
    rw [List.flatMap_cons, words_single t (hne t (List.mem_cons_self _ _))
      (hws t (List.mem_cons_self _ _)),
      ih (fun x hx => hne x (List.mem_cons_of_mem _ hx))
        (fun x hx => hws x (List.mem_cons_of_mem _ hx))]
    rfl

/-- Every `fork` for the compiler is outside the usage branch, after a
successful `mkstemp`, and carries the vector the split loop built. -/
theorem main_compiler_fork (argv : List CStr) (env : Env) (pid : Int) (file : CStr)
    (compile : List CStr)
    (he : Event.fork pid (.compiler file compile) ∈ (main argv env).trace) :
    (optionScan argv).1 < argv.length ∧ pid = env.fork_compiler ∧ file = "g++".toList ∧
    ∃ sfx, env.mkstemp_result = .ok sfx ∧
      compile = splitLoop ((optionScan argv).2 ++ " -x c++ - -o ".toList ++ tmp_name sfx) := by
  unfold main at he
  simp only at he
  repeat' split at he
  all_goals
    simp [not_mem_skip, not_mem_feed, Event.inLoop] at he
  all_goals
    obtain ⟨h1, h2, h3⟩ := he
    refine ⟨by omega, h1, ?_, _, by assumption, ?_⟩
    · simp [h2]
    · simp [h3]

/-- C2 (Command Line Builder).  Let `mkstemp` return the temp path
`tmp_name sfx`, with no whitespace in `sfx`.  Every `fork` for the compiler
executes `g++` with the argument vector `g++`, then the whitespace-separated
words of the option tokens `argv[1], ..., argv[src_index - 1]` in that
order, then `-x c++ - -o` and the temp path; when no option token holds
whitespace, the vector is `g++`, the option tokens themselves in their
order, then the fixed tail. -/
theorem compiler_command_line (argv : List CStr) (env : Env) (sfx : CStr)
    (hmk : env.mkstemp_result = .ok sfx) (hsfx : ∀ c ∈ sfx, isspace c = false)
    (pid : Int) (file : CStr) (compile : List CStr)
    (he : Event.fork pid (.compiler file compile) ∈ (main argv env).trace) :
    file = "g++".toList ∧
    compile = "g++".toList :: (option_tokens argv).flatMap words ++
      fixed_tail (tmp_name sfx) ∧
    ((∀ t ∈ option_tokens argv, ∀ c ∈ t, isspace c = false) →
      compile = "g++".toList :: option_tokens argv ++ fixed_tail (tmp_name sfx)) := by
  obtain ⟨hs, -, hfile, sfx2, hmk2, hcompile⟩ := main_compiler_fork argv env pid file compile he
  rw [hmk] at hmk2
  cases hmk2
  have hargc : 1 ≤ argv.length := by omega
  have hvec := compile_vector argv hargc sfx hsfx
  refine ⟨hfile, hcompile.trans hvec, ?_⟩
  intro hws
  rw [hcompile, hvec, flatMap_words_id _ _ hws]
  intro t ht habs
  have := option_tokens_dash argv hargc t ht
  rw [habs] at this
  revert this
  decide

/-! ## The paths through `main` -/

theorem skipLoop_ok (env : Env) (hr : ReadsOk env) (rest : List Char) (k : Nat) :
    (skipLoop env rest k).err = none := by
  induction rest, k using skipLoop.induct env with
  | case1 rest k e he =>
    obtain ⟨r, hrk⟩ := hr k
    rw [hrk] at he
    cases he
  | case2 rest k r hrk count c hpos hc ih =>
    rw [skipLoop]
    simp only [hrk]
    rw [dif_pos hpos, if_pos hc]
    exact ih
  | case3 rest k r hrk count c hpos hc =>
    rw [skipLoop]
    simp only [hrk]
    rw [dif_pos hpos, if_neg hc]
  | case4 rest k r hrk count hpos =>
    rw [skipLoop]
    simp only [hrk]
    rw [dif_neg hpos]

theorem afterFeed_of_inLoop (e : Event) (h : e.inLoop = true) : e.afterFeed = false := by
  cases e <;> simp_all [Event.inLoop, Event.afterFeed]

/-- The calls up to the end of the feed loop are none of the later stages. -/
theorem setup_not_afterFeed (env : Env) (exe_name src_name : CStr) (file : List Char)
    (compile : List CStr) :
    ∀ e ∈ Event.mkstemp (.ok exe_name) :: Event.close .exe_fd ::
        Event.open_ src_name (.ok ()) :: ((skipLoop env file 0).events ++
          Event.pipe (.ok ()) :: Event.fork env.fork_compiler (.compiler "g++".toList compile) ::
            (feedLoop env src_name env.fork_compiler (skipLoop env file 0).rest
              (skipLoop env file 0).calls 0).1),
      e.afterFeed = false := by
  intro e he
  simp only [List.mem_append, List.mem_cons] at he
  rcases he with rfl | rfl | rfl | he | rfl | rfl | he
  · rfl
  · rfl
  · rfl
  · exact afterFeed_of_inLoop e (skipLoop_inLoop _ _ _ e he)
  · rfl
  · rfl
  · exact afterFeed_of_inLoop e (feedLoop_inLoop _ _ _ _ _ _ e he)

/-- The run in which every call succeeds and the compiler's wait status is
not 0: it ends with the `waitpid` for the compiler, and returns the status. -/
theorem main_compile_failed (argv : List CStr) (env : Env) (sfx : CStr) (file : List Char)
    (st : Int) (hs : (optionScan argv).1 < argv.length)
    (hmk : env.mkstemp_result = .ok sfx) (hop : env.open_result = .ok file)
    (hr : ReadsOk env) (hp : env.pipe_result = .ok ()) (hw : WritesOk env)
    (hwc : env.wait_compiler = .ok st) (hst : st ≠ 0) :
    ∃ T, main argv env =
        ⟨T ++ [.close .write_pipe, .waitpid env.fork_compiler (.ok st)], st⟩ ∧
      Event.mkstemp (.ok (tmp_name sfx)) ∈ T ∧ ∀ e ∈ T, e.afterFeed = false := by
  have hskip := skipLoop_ok env hr file 0
  have hfeed := (feedLoop_ok env hr hw (argv.getD (optionScan argv).1 []) env.fork_compiler
    (skipLoop env file 0).rest (skipLoop env file 0).calls 0).2
  refine ⟨_, ?_, ?_, setup_not_afterFeed env (tmp_name sfx) (argv.getD (optionScan argv).1 [])
    file (splitLoop ((optionScan argv).2 ++ " -x c++ - -o ".toList ++ tmp_name sfx))⟩
  · unfold main
    simp only [Nat.not_le.2 hs, if_false, hmk, hop, hskip, hp, hfeed, hwc, hst, ne_eq,
      not_false_eq_true, if_true]
    simp
  · simp

/-- The run in which every call succeeds and the compiler's wait status is
0: after the feed loop come the `waitpid` for the compiler, the `fork` of
the executable, its `waitpid` and the `unlink`; the value returned is the
exit code of the executable, or its wait status when it did not exit. -/
theorem main_success (argv : List CStr) (env : Env) (sfx : CStr) (file : List Char)
    (st : Int) (hs : (optionScan argv).1 < argv.length)
    (hmk : env.mkstemp_result = .ok sfx) (hop : env.open_result = .ok file)
    (hr : ReadsOk env) (hp : env.pipe_result = .ok ()) (hw : WritesOk env)
    (hwc : env.wait_compiler = .ok 0) (hwe : env.wait_executable = .ok st) :
    ∃ T, main argv env =
        ⟨T ++ [.close .write_pipe, .waitpid env.fork_compiler (.ok 0),
            .fork env.fork_executable
              (.executable (tmp_name sfx) (argv.drop (optionScan argv).1)),
            .waitpid env.fork_executable (.ok st),
            .unlink (tmp_name sfx) env.unlink_result],
          if WIFEXITED st then WEXITSTATUS st else st⟩ ∧
      Event.mkstemp (.ok (tmp_name sfx)) ∈ T ∧ ∀ e ∈ T, e.afterFeed = false := by
  have hskip := skipLoop_ok env hr file 0
  have hfeed := (feedLoop_ok env hr hw (argv.getD (optionScan argv).1 []) env.fork_compiler
    (skipLoop env file 0).rest (skipLoop env file 0).calls 0).2
  refine ⟨_, ?_, ?_, setup_not_afterFeed env (tmp_name sfx) (argv.getD (optionScan argv).1 [])
    file (splitLoop ((optionScan argv).2 ++ " -x c++ - -o ".toList ++ tmp_name sfx))⟩
  · unfold main
    simp only [Nat.not_le.2 hs, if_false, hmk, hop, hskip, hp, hfeed, hwc, hwe, ne_eq,
      not_true_eq_false, if_false]
    simp
  · simp

/-- The run that reaches the first `fork` makes it for `g++`, with the
vector the split loop built. -/
theorem main_forks_compiler (argv : List CStr) (env : Env) (sfx : CStr) (file : List Char)
    (hs : (optionScan argv).1 < argv.length)
    (hmk : env.mkstemp_result = .ok sfx) (hop : env.open_result = .ok file)
    (hr : ReadsOk env) (hp : env.pipe_result = .ok ()) :
    Event.fork env.fork_compiler (.compiler "g++".toList
      (splitLoop ((optionScan argv).2 ++ " -x c++ - -o ".toList ++ tmp_name sfx)))
      ∈ (main argv env).trace := by
  have hskip := skipLoop_ok env hr file 0
  unfold main
  simp only [Nat.not_le.2 hs, if_false, hmk, hop, hskip, hp]
  repeat' split
  all_goals simp

/-- Every `fork` of the executable is outside the usage branch, after a
successful `mkstemp`, on the temp path and the tokens from `src_index` on. -/
theorem main_executable_fork (argv : List CStr) (env : Env) (pid : Int) (path : CStr)
    (args : List CStr)
    (he : Event.fork pid (.executable path args) ∈ (main argv env).trace) :
    (optionScan argv).1 < argv.length ∧ pid = env.fork_executable ∧
    env.wait_compiler = .ok 0 ∧ args = argv.drop (optionScan argv).1 ∧
    ∃ sfx, env.mkstemp_result = .ok sfx ∧ path = tmp_name sfx := by
  unfold main at he
  simp only at he
  repeat' split at he
  all_goals
    simp [not_mem_skip, not_mem_feed, Event.inLoop] at he
  all_goals
    obtain ⟨h1, h2, h3⟩ := he
    refine ⟨by omega, h1, by simp_all, h3, _, by assumption, h2⟩

theorem filter_isFork_skip (env : Env) (rest : List Char) (k : Nat) :
    (skipLoop env rest k).events.filter Event.isFork = [] := by
  rw [List.filter_eq_nil_iff]
  intro e he
  have := skipLoop_inLoop env rest k e he
  cases e <;> simp_all [Event.inLoop, Event.isFork]

theorem filter_isFork_feed (env : Env) (src_name : CStr) (child : Int) (rest : List Char)
    (rk wk : Nat) : (feedLoop env src_name child rest rk wk).1.filter Event.isFork = [] := by
  rw [List.filter_eq_nil_iff]
  intro e he
  have := feedLoop_inLoop env src_name child rest rk wk e he
  cases e <;> simp_all [Event.inLoop, Event.isFork]

/-- C2 at `c++run "-O2 -Wall" x.cpp -a "b c"`, as run from a `#!` line:
`g++` gets the two options as two arguments. -/
theorem compiler_command_line_witness :
    Event.fork 101 (.compiler "g++".toList
        ["g++".toList, "-O2".toList, "-Wall".toList, "-x".toList, "c++".toList, "-".toList,
          "-o".toList, "/tmp/c++run-abc123".toList])
      ∈ (main ["c++run".toList, "-O2 -Wall".toList, "x.cpp".toList, "-a".toList,
            "b c".toList]
          (Env.plain "abc123".toList "#!\nab".toList 7 0 0)).trace := by
  have hmem := main_forks_compiler
    ["c++run".toList, "-O2 -Wall".toList, "x.cpp".toList, "-a".toList, "b c".toList]
    (Env.plain "abc123".toList "#!\nab".toList 7 0 0) "abc123".toList "#!\nab".toList
    (by rw [optionScan_shebang]; decide) rfl rfl (fun _ => ⟨7, rfl⟩) rfl
  have h := (compiler_command_line
    ["c++run".toList, "-O2 -Wall".toList, "x.cpp".toList, "-a".toList, "b c".toList]
    (Env.plain "abc123".toList "#!\nab".toList 7 0 0) "abc123".toList rfl (by decide)
    _ _ _ hmem).2.1
  have hval : "g++".toList :: (option_tokens
      ["c++run".toList, "-O2 -Wall".toList, "x.cpp".toList, "-a".toList,
        "b c".toList]).flatMap words ++ fixed_tail (tmp_name "abc123".toList) =
      ["g++".toList, "-O2".toList, "-Wall".toList, "-x".toList, "c++".toList, "-".toList,
          "-o".toList, "/tmp/c++run-abc123".toList] := by
    rw [option_tokens, optionScan_shebang]
    decide
  rw [← hval, ← h]
  exact hmem

/-! ## The execute stage -/

/-- C4 (Execute Stage exit status).  In a run in which every call succeeds
and the compiler's wait status is 0: if the wait status `st` of the
executable says it exited (`WIFEXITED`) with code `S` (`WEXITSTATUS`), then
`main` returns `S`, and `S` is the exit code of the launcher. -/
theorem execute_stage_exit_status (argv : List CStr) (env : Env) (sfx : CStr)
    (file : List Char) (st S : Int) (hs : (optionScan argv).1 < argv.length)
    (hmk : env.mkstemp_result = .ok sfx) (hop : env.open_result = .ok file)
    (hr : ReadsOk env) (hp : env.pipe_result = .ok ()) (hw : WritesOk env)
    (hwc : env.wait_compiler = .ok 0) (hwe : env.wait_executable = .ok st)
    (hexited : WIFEXITED st = true) (hcode : WEXITSTATUS st = S) :
    (main argv env).ret = S ∧ exit_code (main argv env).ret = S := by
  obtain ⟨T, hmain, -⟩ := main_success argv env sfx file st hs hmk hop hr hp hw hwc hwe
  have hret : (main argv env).ret = S := by
    rw [hmain]
    simp only [hexited, if_true]
    exact hcode
  refine ⟨hret, ?_⟩
  rw [hret, ← hcode]
  unfold exit_code WEXITSTATUS
  omega

/-- C4 at `c++run x.cpp` with an executable that exits with code 42
(wait status `42 * 256`). -/
theorem execute_stage_exit_status_witness :
    (main ["c++run".toList, "x.cpp".toList]
      (Env.plain "abc123".toList "#!/dummy\nint main()\x7breturn 42;\x7d\n".toList 7 0
        (W_EXITCODE 42))).ret = 42 ∧
    exit_code (main ["c++run".toList, "x.cpp".toList]
      (Env.plain "abc123".toList "#!/dummy\nint main()\x7breturn 42;\x7d\n".toList 7 0
        (W_EXITCODE 42))).ret = 42 :=
  execute_stage_exit_status ["c++run".toList, "x.cpp".toList]
    (Env.plain "abc123".toList "#!/dummy\nint main()\x7breturn 42;\x7d\n".toList 7 0 (W_EXITCODE 42))
    "abc123".toList "#!/dummy\nint main()\x7breturn 42;\x7d\n".toList (W_EXITCODE 42) 42
    (by rw [optionScan_plain]; decide) rfl rfl (fun _ => ⟨7, rfl⟩) rfl (fun _ => ⟨7, rfl⟩)
    rfl rfl (by decide) (by decide)

/-- C7 (Execute Stage arguments).  Every `fork` of the executable runs
`execv` on the temp path `mkstemp` returned, with the argument vector
`argv[src_index], ..., argv[argc - 1]`: the tokens from the source path
on, unchanged and in order, the source path first. -/
theorem execute_stage_arguments (argv : List CStr) (env : Env) (pid : Int) (path : CStr)
    (args : List CStr)
    (he : Event.fork pid (.executable path args) ∈ (main argv env).trace) :
    (∃ sfx, env.mkstemp_result = .ok sfx ∧ path = tmp_name sfx) ∧
    args = argv.drop (optionScan argv).1 ∧
    ∃ hs : (optionScan argv).1 < argv.length,
      args = argv[(optionScan argv).1] :: argv.drop ((optionScan argv).1 + 1) := by
  obtain ⟨hs, -, -, hargs, hsfx⟩ := main_executable_fork argv env pid path args he
  refine ⟨hsfx, hargs, hs, ?_⟩
  rw [hargs]
  exact List.drop_eq_getElem_cons hs

/-- C7 at `c++run "-O2 -Wall" x.cpp -a "b c"`: the executable gets
`x.cpp`, `-a`, `b c`. -/
theorem execute_stage_arguments_witness :
    Event.fork 102 (.executable "/tmp/c++run-abc123".toList
        ["x.cpp".toList, "-a".toList, "b c".toList])
      ∈ (main ["c++run".toList, "-O2 -Wall".toList, "x.cpp".toList, "-a".toList,
            "b c".toList]
          (Env.plain "abc123".toList "#!\nab".toList 7 0 0)).trace ∧
    ["x.cpp".toList, "-a".toList, "b c".toList] =
      List.drop (optionScan ["c++run".toList, "-O2 -Wall".toList, "x.cpp".toList,
        "-a".toList, "b c".toList]).1
        ["c++run".toList, "-O2 -Wall".toList, "x.cpp".toList, "-a".toList, "b c".toList] := by
  obtain ⟨T, hmain, -⟩ := main_success
    ["c++run".toList, "-O2 -Wall".toList, "x.cpp".toList, "-a".toList, "b c".toList]
    (Env.plain "abc123".toList "#!\nab".toList 7 0 0) "abc123".toList "#!\nab".toList 0
    (by rw [optionScan_shebang]; decide) rfl rfl (fun _ => ⟨7, rfl⟩) rfl (fun _ => ⟨7, rfl⟩)
    rfl rfl
  have hmem : Event.fork 102 (.executable "/tmp/c++run-abc123".toList
        ["x.cpp".toList, "-a".toList, "b c".toList])
      ∈ (main ["c++run".toList, "-O2 -Wall".toList, "x.cpp".toList, "-a".toList,
            "b c".toList]
          (Env.plain "abc123".toList "#!\nab".toList 7 0 0)).trace := by
    rw [hmain, optionScan_shebang]
    simp [Env.plain, tmp_name]
  exact ⟨hmem, (execute_stage_arguments _ _ _ _ _ hmem).2.1⟩

/-- C8 (No execution after a failed compile).  When the wait status of the
compiler is not 0, the run makes no `fork` of the executable, so no `execv`
of the temp path, and makes one `fork` at most. -/
theorem no_execution_after_failed_compile (argv : List CStr) (env : Env) (st : Int)
    (hwc : env.wait_compiler = .ok st) (hst : st ≠ 0) :
    (∀ pid path args, Event.fork pid (.executable path args) ∉ (main argv env).trace) ∧
    ((main argv env).trace.filter Event.isFork).length ≤ 1 := by
  constructor
  · intro pid path args he
    have h := (main_executable_fork argv env pid path args he).2.2.1
    rw [hwc] at h
    cases h
    exact hst rfl
  · unfold main
    simp only [hwc, hst, ne_eq, not_false_eq_true, if_true]
    repeat' split
    all_goals
      simp [List.filter_cons, filter_isFork_skip, filter_isFork_feed, Event.isFork]

/-- C8 at `c++run x.cpp` with a compiler that exits with code 1 (wait
status 256). -/
theorem no_execution_after_failed_compile_witness :
    (∀ pid path args, Event.fork pid (.executable path args) ∉
      (main ["c++run".toList, "x.cpp".toList]
        (Env.plain "abc123".toList "#!\nab".toList 7 (W_EXITCODE 1) 0)).trace) ∧
    ((main ["c++run".toList, "x.cpp".toList]
        (Env.plain "abc123".toList "#!\nab".toList 7 (W_EXITCODE 1) 0)).trace.filter
      Event.isFork).length ≤ 1 :=
  no_execution_after_failed_compile ["c++run".toList, "x.cpp".toList]
    (Env.plain "abc123".toList "#!\nab".toList 7 (W_EXITCODE 1) 0) (W_EXITCODE 1) rfl
    (by decide)

/-! ## The temp artifact -/

theorem files_left_append (a b : List Event) :
    files_left (a ++ b) = b.foldl files_step (files_left a) := by
  simp [files_left, List.foldl_append]

/-- A path in the set stays there as long as no `unlink` is made. -/
theorem foldl_files_step_mem (tr : List Event) (hno : ∀ q r, Event.unlink q r ∉ tr)
    (p : CStr) : ∀ fs, p ∈ fs → p ∈ tr.foldl files_step fs := by
  induction tr with
  | nil =>
    intro fs h
    exact h
  | cons e tr ih =>
    intro fs h
    rw [List.foldl_cons]
    apply ih (fun q r hq => hno q r (List.mem_cons_of_mem _ hq))
    cases e with
    | mkstemp result =>
      cases result with
      | error errno => exact h
      | ok val => exact List.mem_cons_of_mem _ h
    | unlink path result => exact absurd (List.mem_cons_self _ _) (hno path result)
    | _ => exact h

/-- A temp file made by `mkstemp` is left when no `unlink` is made. -/
theorem files_left_of_no_unlink (tr : List Event) (hno : ∀ q r, Event.unlink q r ∉ tr)
    (p : CStr) (hmem : Event.mkstemp (.ok p) ∈ tr) : ∀ fs, p ∈ tr.foldl files_step fs := by
  induction tr with
  | nil => cases hmem
  | cons e tr ih =>
    intro fs
    rw [List.foldl_cons]
    rcases List.mem_cons.1 hmem with rfl | h
    · exact foldl_files_step_mem tr (fun q r hq => hno q r (List.mem_cons_of_mem _ hq)) p _
        (List.mem_cons_self _ _)
    · exact ih (fun q r hq => hno q r (List.mem_cons_of_mem _ hq)) h _

/-- C9 (Temp artifact removal after a run).  In a run in which every call
up to the second `waitpid` succeeds and the compiler's wait status is 0,
whatever the wait status of the executable (exit with any code, or
termination by a signal): the last call of the run is `unlink` on the path
`mkstemp` returned, and it is the only `unlink`; so, when that `unlink`
succeeds, the temp file is no longer among the files the run leaves. -/
theorem temp_artifact_removed_after_run (argv : List CStr) (env : Env) (sfx : CStr)
    (file : List Char) (st : Int) (hs : (optionScan argv).1 < argv.length)
    (hmk : env.mkstemp_result = .ok sfx) (hop : env.open_result = .ok file)
    (hr : ReadsOk env) (hp : env.pipe_result = .ok ()) (hw : WritesOk env)
    (hwc : env.wait_compiler = .ok 0) (hwe : env.wait_executable = .ok st) :
    (∃ T, (main argv env).trace = T ++ [.unlink (tmp_name sfx) env.unlink_result] ∧
      Event.mkstemp (.ok (tmp_name sfx)) ∈ T ∧ ∀ p r, Event.unlink p r ∉ T) ∧
    (env.unlink_result = .ok () → tmp_name sfx ∉ files_left (main argv env).trace) := by
  obtain ⟨T, hmain, hmem, hT⟩ := main_success argv env sfx file st hs hmk hop hr hp hw hwc hwe
  have htrace : (main argv env).trace =
      (T ++ [.close .write_pipe, .waitpid env.fork_compiler (.ok 0),
        .fork env.fork_executable (.executable (tmp_name sfx) (argv.drop (optionScan argv).1)),
        .waitpid env.fork_executable (.ok st)]) ++
        [.unlink (tmp_name sfx) env.unlink_result] := by
    rw [hmain]
    simp
  constructor
  · refine ⟨_, htrace, List.mem_append_left _ hmem, ?_⟩
    intro p r hp2
    rcases List.mem_append.1 hp2 with h | h
    · have := hT _ h
      simp [Event.afterFeed] at this
    · simp at h
  · intro hul hin
    rw [htrace, files_left_append, hul] at hin
    simp [files_step] at hin

/-- C9 at `c++run x.cpp` with an executable killed by signal 11 (wait
status 11). -/
theorem temp_artifact_removed_after_run_witness :
    (∃ T, (main ["c++run".toList, "x.cpp".toList]
        (Env.plain "abc123".toList "#!\nab".toList 7 0 11)).trace
        = T ++ [.unlink (tmp_name "abc123".toList) (.ok ())] ∧
      Event.mkstemp (.ok (tmp_name "abc123".toList)) ∈ T ∧ ∀ p r, Event.unlink p r ∉ T) ∧
    tmp_name "abc123".toList ∉ files_left (main ["c++run".toList, "x.cpp".toList]
        (Env.plain "abc123".toList "#!\nab".toList 7 0 11)).trace :=
  ⟨(temp_artifact_removed_after_run ["c++run".toList, "x.cpp".toList]
      (Env.plain "abc123".toList "#!\nab".toList 7 0 11) "abc123".toList "#!\nab".toList 11
      (by rw [optionScan_plain]; decide) rfl rfl (fun _ => ⟨7, rfl⟩) rfl (fun _ => ⟨7, rfl⟩)
      rfl rfl).1,
   (temp_artifact_removed_after_run ["c++run".toList, "x.cpp".toList]
      (Env.plain "abc123".toList "#!\nab".toList 7 0 11) "abc123".toList "#!\nab".toList 11
      (by rw [optionScan_plain]; decide) rfl rfl (fun _ => ⟨7, rfl⟩) rfl (fun _ => ⟨7, rfl⟩)
      rfl rfl).2 rfl⟩

/-! ## Compile failure -/

/-- What the run returns when the compiler exits with code `S`: the wait
status `S * 256`, of which the launcher's parent sees the exit code 0. -/
theorem main_compile_failed_ret (argv : List CStr) (env : Env) (sfx : CStr)
    (file : List Char) (S : Int) (hS : 1 ≤ S ∧ S ≤ 255)
    (hs : (optionScan argv).1 < argv.length)
    (hmk : env.mkstemp_result = .ok sfx) (hop : env.open_result = .ok file)
    (hr : ReadsOk env) (hp : env.pipe_result = .ok ()) (hw : WritesOk env)
    (hwc : env.wait_compiler = .ok (W_EXITCODE S)) :
    (main argv env).ret = S * 256 ∧ exit_code (main argv env).ret = 0 := by
  obtain ⟨T, hmain, -⟩ := main_compile_failed argv env sfx file (W_EXITCODE S) hs hmk hop
    hr hp hw hwc (by unfold W_EXITCODE; omega)
  rw [hmain]
  refine ⟨rfl, ?_⟩
  show exit_code (W_EXITCODE S) = 0
  unfold W_EXITCODE exit_code
  omega

/-- C5 (Compile failure exit status), at `c++run x.cpp` with a compiler
that exits with code 1: `main` returns the wait status 256, not 1, and the
exit code of the launcher is 0. -/
theorem compile_failure_exit_status_lost :
    (main ["c++run".toList, "x.cpp".toList]
      (Env.plain "abc123".toList "#!\nab".toList 7 (W_EXITCODE 1) 0)).ret = 256 ∧
    exit_code (main ["c++run".toList, "x.cpp".toList]
      (Env.plain "abc123".toList "#!\nab".toList 7 (W_EXITCODE 1) 0)).ret = 0 :=
  main_compile_failed_ret ["c++run".toList, "x.cpp".toList]
    (Env.plain "abc123".toList "#!\nab".toList 7 (W_EXITCODE 1) 0) "abc123".toList
    "#!\nab".toList 1 (by decide) (by rw [optionScan_plain]; decide) rfl rfl
    (fun _ => ⟨7, rfl⟩) rfl (fun _ => ⟨7, rfl⟩) rfl

/-- C10 (Temp artifact removal on compile failure), at `c++run x.cpp` with
a compiler that exits with code 1: `mkstemp` has created
`/tmp/c++run-abc123`, the run ends with the `waitpid` for the compiler and
makes no `unlink`, and the temp file is among the files the run leaves. -/
theorem temp_artifact_left_on_compile_failure :
    Event.mkstemp (.ok "/tmp/c++run-abc123".toList) ∈
      (main ["c++run".toList, "x.cpp".toList]
        (Env.plain "abc123".toList "#!\nab".toList 7 (W_EXITCODE 1) 0)).trace ∧
    (main ["c++run".toList, "x.cpp".toList]
        (Env.plain "abc123".toList "#!\nab".toList 7 (W_EXITCODE 1) 0)).trace.getLast?
      = some (.waitpid 101 (.ok 256)) ∧
    (∀ p r, Event.unlink p r ∉
      (main ["c++run".toList, "x.cpp".toList]
        (Env.plain "abc123".toList "#!\nab".toList 7 (W_EXITCODE 1) 0)).trace) ∧
    "/tmp/c++run-abc123".toList ∈ files_left
      (main ["c++run".toList, "x.cpp".toList]
        (Env.plain "abc123".toList "#!\nab".toList 7 (W_EXITCODE 1) 0)).trace := by
  obtain ⟨T, hmain, hmem, hT⟩ := main_compile_failed ["c++run".toList, "x.cpp".toList]
    (Env.plain "abc123".toList "#!\nab".toList 7 (W_EXITCODE 1) 0) "abc123".toList
    "#!\nab".toList (W_EXITCODE 1) (by rw [optionScan_plain]; decide) rfl rfl
    (fun _ => ⟨7, rfl⟩) rfl (fun _ => ⟨7, rfl⟩) rfl (by decide)
  rw [hmain]
  have hno : ∀ p r, Event.unlink p r ∉
      T ++ [Event.close Fd.write_pipe,
        Event.waitpid (Env.plain "abc123".toList "#!\nab".toList 7 (W_EXITCODE 1) 0).fork_compiler
          (.ok (W_EXITCODE 1))] := by
    intro p r hp
    rcases List.mem_append.1 hp with h | h
    · have := hT _ h
      simp [Event.afterFeed] at this
    · simp at h
  refine ⟨List.mem_append_left _ hmem, ?_, hno, ?_⟩
  · simp [Env.plain, W_EXITCODE]
  · exact files_left_of_no_unlink _ hno _ (List.mem_append_left _ hmem) []

end CxxRun
